import Mathlib

/-!
# Verification of the toy data structures in JavaScript-in-Depth-With-Notes

Shallow embedding of the illustrative classes of the repository
(`LRUCache`, the event-emitter variants, `TestRunner`, `Assertions`,
`circuitBreaker`, the retry helpers, the two `CircularBuffer` classes,
and the module-export guards), together with theorems settling the
frozen claims about them.

JavaScript `Map` objects are modelled as association lists in insertion
order (`List (Int × Int)` etc.): `Map.set` updates an existing key in
place and appends a fresh key at the end, `Map.delete` removes the key,
and iteration (`keys().next()`, `forEach`) follows the list order —
exactly the guarantees of the ECMAScript `Map` specification that the
source code relies on.
-/

/-! ## JavaScript `Map` with `Int` keys and `Int` values (insertion order) -/

/-- `Map.prototype.has` -/
def mapHas (m : List (Int × Int)) (k : Int) : Bool :=
  m.any (fun p => p.1 == k)

/-- `Map.prototype.get` (`none` = `undefined`). -/
def mapGet (m : List (Int × Int)) (k : Int) : Option Int :=
  (m.find? (fun p => p.1 == k)).map (fun p => p.2)

/-- `Map.prototype.delete` (drops every entry with the key; a real `Map`
holds each key at most once, which the operations below preserve). -/
def mapDelete (m : List (Int × Int)) (k : Int) : List (Int × Int) :=
  m.filter (fun p => p.1 != k)

/-- `Map.prototype.set`: update in place when the key is present,
append at the end otherwise. -/
def mapSet (m : List (Int × Int)) (k v : Int) : List (Int × Int) :=
  if mapHas m k then m.map (fun p => if p.1 == k then (k, v) else p)
  else m ++ [(k, v)]


/-! ## `LRUCache` (src/15_Memory_Management.js, lines 225–249)

```js
class LRUCache {
    constructor(capacity) { this.capacity = capacity; this.cache = new Map(); }
    get(key) {
        if (!this.cache.has(key)) return -1;
        const value = this.cache.get(key);
        this.cache.delete(key);
        this.cache.set(key, value);
        return value;
    }
    put(key, value) {
        if (this.cache.has(key)) {
            this.cache.delete(key);
        } else if (this.cache.size >= this.capacity) {
            const firstKey = this.cache.keys().next().value;
            this.cache.delete(firstKey);
        }
        this.cache.set(key, value);
    }
}
```
-/

structure LRUCache where
  capacity : Nat
  cache : List (Int × Int)
deriving Repr, DecidableEq

/-- `new LRUCache(capacity)` -/
def LRUCache.mkEmpty (capacity : Nat) : LRUCache := ⟨capacity, []⟩

/-- `LRUCache.prototype.get`: returns the value (or `-1`) and the
updated cache. -/
def LRUCache.get (c : LRUCache) (k : Int) : Int × LRUCache :=
  if mapHas c.cache k then
    match mapGet c.cache k with
    | some v => (v, ⟨c.capacity, mapSet (mapDelete c.cache k) k v⟩)
    | none => (-1, c)      -- unreachable: `has` implies `get` succeeds
  else (-1, c)

/-- `this.cache.keys().next().value` followed by `delete`: removing the
first key in insertion order (a no-op on an empty map, where the key
read out is `undefined`). -/
def mapDeleteFirst (m : List (Int × Int)) : List (Int × Int) :=
  match m.head? with
  | none => m
  | some p => mapDelete m p.1

/-- `LRUCache.prototype.put` -/
def LRUCache.put (c : LRUCache) (k v : Int) : LRUCache :=
  let m :=
    if mapHas c.cache k then mapDelete c.cache k
    else if c.cache.length ≥ c.capacity then mapDeleteFirst c.cache
    else c.cache
  ⟨c.capacity, mapSet m k v⟩

inductive LRUOp where
  | get (k : Int)
  | put (k v : Int)
deriving Repr, DecidableEq

def LRUCache.step (c : LRUCache) : LRUOp → LRUCache
  | .get k => (c.get k).2
  | .put k v => c.put k v

def LRUCache.runOps (capacity : Nat) (ops : List LRUOp) : LRUCache :=
  ops.foldl LRUCache.step (LRUCache.mkEmpty capacity)

/-! ## Event emitters

Three variants appear in the sources.  Callbacks are modelled by their
identity (a `Nat`): JavaScript collections compare functions and objects
by reference, so an identifier is exactly what `Set` membership and
`===` see.  An emit is observed as the list of `(callback, data)`
invocations it performs, in order.

The event maps (`Map` keyed by event name) reuse the association-list
model, generic in the value type. -/

/-- `Map.prototype.has` for string-keyed maps. -/
def emHas {α : Type} : List (String × α) → String → Bool
  | [], _ => false
  | p :: t, ev => p.1 == ev || emHas t ev

/-- `Map.prototype.get` for string-keyed maps (`none` = `undefined`). -/
def emGet {α : Type} : List (String × α) → String → Option α
  | [], _ => none
  | p :: t, ev => if p.1 == ev then some p.2 else emGet t ev

/-- `emGet` with a default, i.e. the value the mutating methods operate
on after ensuring the key is present. -/
def emGetD {α : Type} (m : List (String × α)) (ev : String) (d : α) : α :=
  (emGet m ev).getD d

/-- In-place mutation of the collection stored under a key (the pattern
`this.events.get(event).push(...)` / `.add(...)` / `.delete(...)`). -/
def emModify {α : Type} (m : List (String × α)) (ev : String) (f : α → α) :
    List (String × α) :=
  m.map (fun p => if p.1 == ev then (p.1, f p.2) else p)

/-- `Map.prototype.delete` for string-keyed maps. -/
def emDelete {α : Type} (m : List (String × α)) (ev : String) :
    List (String × α) :=
  m.filter (fun p => p.1 != ev)

/-! ### `EventEmitter` (src/unnamed/part_004, lines 371–388)

```js
class EventEmitter {
    constructor() { this.events = new Map(); }
    on(event, callback) {
        if (!this.events.has(event)) { this.events.set(event, []); }
        this.events.get(event).push(callback);
    }
    emit(event, data) {
        if (this.events.has(event)) {
            this.events.get(event).forEach(callback => callback(data));
        }
    }
}
```
-/

structure EventEmitter where
  events : List (String × List Nat)
deriving Repr, DecidableEq

def EventEmitter.on (s : EventEmitter) (event : String) (callback : Nat) :
    EventEmitter :=
  let m := if emHas s.events event then s.events
           else s.events ++ [(event, [])]
  ⟨emModify m event (fun callbacks => callbacks ++ [callback])⟩

/-- `emit` returns the performed invocations and the (unchanged)
emitter. -/
def EventEmitter.emit (s : EventEmitter) (event : String) (data : Int) :
    List (Nat × Int) × EventEmitter :=
  if emHas s.events event then
    ((emGetD s.events event []).map (fun callback => (callback, data)), s)
  else ([], s)

/-! ### `MemoryEfficientEmitter` (src/15_Memory_Management.js, lines 252–282)

Stores a `Set` of callbacks per event; `Set.add` of a function already in
the set is a no-op, so the set is a duplicate-free list in insertion
order.

```js
class MemoryEfficientEmitter {
    constructor() { this.events = new Map(); }
    on(event, callback) {
        if (!this.events.has(event)) { this.events.set(event, new Set()); }
        this.events.get(event).add(callback);
        return () => this.off(event, callback);
    }
    off(event, callback) {
        const callbacks = this.events.get(event);
        if (callbacks) {
            callbacks.delete(callback);
            if (callbacks.size === 0) { this.events.delete(event); }
        }
    }
    emit(event, ...args) {
        const callbacks = this.events.get(event);
        if (callbacks) { callbacks.forEach(callback => callback(...args)); }
    }
}
```
-/

/-- `Set.prototype.add` on a duplicate-free insertion-ordered list. -/
def setAdd (s : List Nat) (x : Nat) : List Nat :=
  if s.contains x then s else s ++ [x]

structure MemoryEfficientEmitter where
  events : List (String × List Nat)
deriving Repr, DecidableEq

def MemoryEfficientEmitter.on (s : MemoryEfficientEmitter) (event : String)
    (callback : Nat) : MemoryEfficientEmitter :=
  let m := if emHas s.events event then s.events
           else s.events ++ [(event, [])]
  ⟨emModify m event (fun callbacks => setAdd callbacks callback)⟩

def MemoryEfficientEmitter.off (s : MemoryEfficientEmitter) (event : String)
    (callback : Nat) : MemoryEfficientEmitter :=
  match emGet s.events event with
  | none => s
  | some callbacks =>
    let callbacks' := callbacks.filter (fun c => c ≠ callback)
    if callbacks'.length = 0 then ⟨emDelete s.events event⟩
    else ⟨emModify s.events event (fun _ => callbacks')⟩

def MemoryEfficientEmitter.emit (s : MemoryEfficientEmitter) (event : String)
    (data : Int) : List (Nat × Int) × MemoryEfficientEmitter :=
  match emGet s.events event with
  | none => ([], s)
  | some callbacks => (callbacks.map (fun callback => (callback, data)), s)

/-! ### `EventSystem` (src/11_Events.js, lines 251–282)

Stores a `Set` of `{ callback, options }` object literals per event.
Every call of `on` creates a fresh object, and `Set` membership of
objects is by reference, so `add` always appends; the `id` field below
models the object identity (drawn from a fresh-id counter).

```js
class EventSystem {
    constructor() { this.listeners = new Map(); }
    on(event, callback, options = {}) {
        if (!this.listeners.has(event)) { this.listeners.set(event, new Set()); }
        this.listeners.get(event).add({ callback, options });
    }
    off(event, callback) {
        if (!this.listeners.has(event)) return;
        const listeners = this.listeners.get(event);
        listeners.forEach(listener => {
            if (listener.callback === callback) { listeners.delete(listener); }
        });
    }
    emit(event, data) {
        if (!this.listeners.has(event)) return;
        this.listeners.get(event).forEach(({ callback, options }) => {
            if (options.once) { this.off(event, callback); }
            callback(data);
        });
    }
}
```
-/

structure Listener where
  id : Nat
  callback : Nat
  once : Bool
deriving Repr, DecidableEq

structure EventSystem where
  listeners : List (String × List Listener)
  nextId : Nat
deriving Repr, DecidableEq

def EventSystem.on (s : EventSystem) (event : String) (callback : Nat)
    (once : Bool) : EventSystem :=
  let m := if emHas s.listeners event then s.listeners
           else s.listeners ++ [(event, [])]
  ⟨emModify m event (fun ls => ls ++ [⟨s.nextId, callback, once⟩]),
    s.nextId + 1⟩

/-- The body of `off` on one event's listener set: delete every listener
whose `callback` matches. -/
def offList (ls : List Listener) (callback : Nat) : List Listener :=
  ls.filter (fun l => !(l.callback == callback))

def EventSystem.off (s : EventSystem) (event : String) (callback : Nat) :
    EventSystem :=
  if emHas s.listeners event then
    ⟨emModify s.listeners event (fun ls => offList ls callback), s.nextId⟩
  else s

/-- `Set.prototype.forEach` over the live set: elements removed before
being visited are skipped (a `once` listener unregisters every listener
with the same callback before invoking it). `remaining` is the original
insertion order still to visit; `current` is the live set. -/
def emitAux (data : Int) :
    List Listener → List Listener → List (Nat × Int) × List Listener
  | [], current => ([], current)
  | l :: rest, current =>
    if current.any (fun x => x.id == l.id) then
      let current' := if l.once then offList current l.callback else current
      let (calls, final) := emitAux data rest current'
      ((l.callback, data) :: calls, final)
    else emitAux data rest current

def EventSystem.emit (s : EventSystem) (event : String) (data : Int) :
    List (Nat × Int) × EventSystem :=
  if emHas s.listeners event then
    let ls := emGetD s.listeners event []
    let (calls, final) := emitAux data ls ls
    (calls, ⟨emModify s.listeners event (fun _ => final), s.nextId⟩)
  else ([], s)

/-! ### Registration sequences (for claims quantifying over `on` calls) -/

/-- Build an `EventEmitter` from a sequence of `on(event, callback)`
registrations. -/
def buildEE (regs : List (String × Nat)) : EventEmitter :=
  regs.foldl (fun s r => s.on r.1 r.2) ⟨[]⟩

/-- Build a `MemoryEfficientEmitter` from a sequence of
`on(event, callback)` registrations. -/
def buildMEE (regs : List (String × Nat)) : MemoryEfficientEmitter :=
  regs.foldl (fun s r => s.on r.1 r.2) ⟨[]⟩

/-- Build an `EventSystem` from a sequence of two-argument
`on(event, callback)` calls (`options = {}`, so `options.once` is
falsy). -/
def buildES (regs : List (String × Nat)) : EventSystem :=
  regs.foldl (fun s r => s.on r.1 r.2 false) ⟨[], 0⟩

/-- The callbacks registered for `ev` by a registration sequence, in
registration order. -/
def regsFor (regs : List (String × Nat)) (ev : String) : List Nat :=
  (regs.filter (fun r => r.1 == ev)).map (fun r => r.2)


/-! ## `CircularBuffer`, counted variant (src/unnamed/part_005, lines 209–231)

```js
class CircularBuffer {
    constructor(size) {
        this.size = size;
        this.buffer = new Array(size);
        this.writePtr = 0;
        this.readPtr = 0;
        this.count = 0;
    }
    write(value) {
        this.buffer[this.writePtr] = value;
        this.writePtr = (this.writePtr + 1) % this.size;
        this.count = Math.min(this.count + 1, this.size);
    }
    read() {
        if (this.count === 0) return null;
        const value = this.buffer[this.readPtr];
        this.readPtr = (this.readPtr + 1) % this.size;
        this.count--;
        return value;
    }
}
```

`JSVal` models the values a read can produce: `null` (empty-buffer
read in the counted variant), `undefined` (a slot `new Array(size)`
never wrote), or a written number. -/

inductive JSVal where
  | null
  | undef
  | num (n : Int)
deriving Repr, DecidableEq

namespace Part005

structure CircularBuffer where
  size : Nat
  buffer : List JSVal
  writePtr : Nat
  readPtr : Nat
  count : Nat
deriving Repr, DecidableEq

/-- `new CircularBuffer(size)` -/
def CircularBuffer.mk0 (size : Nat) : CircularBuffer :=
  ⟨size, List.replicate size JSVal.undef, 0, 0, 0⟩

def CircularBuffer.write (b : CircularBuffer) (value : Int) : CircularBuffer :=
  { b with
    buffer := b.buffer.set b.writePtr (JSVal.num value),
    writePtr := (b.writePtr + 1) % b.size,
    count := min (b.count + 1) b.size }

def CircularBuffer.read (b : CircularBuffer) : JSVal × CircularBuffer :=
  if b.count = 0 then (JSVal.null, b)
  else (b.buffer.getD b.readPtr JSVal.undef,
    { b with readPtr := (b.readPtr + 1) % b.size, count := b.count - 1 })

end Part005

/-! ## `CircularBuffer`, uncounted variant (src/unnamed/part_006, lines 145–163)

```js
class CircularBuffer {
    constructor(size) {
        this.buffer = new Array(size);
        this.size = size;
        this.writePtr = 0;
        this.readPtr = 0;
    }
    write(data) {
        this.buffer[this.writePtr] = data;
        this.writePtr = (this.writePtr + 1) % this.size;
    }
    read() {
        const data = this.buffer[this.readPtr];
        this.readPtr = (this.readPtr + 1) % this.size;
        return data;
    }
}
```
-/

namespace Part006

structure CircularBuffer where
  buffer : List JSVal
  size : Nat
  writePtr : Nat
  readPtr : Nat
deriving Repr, DecidableEq

/-- `new CircularBuffer(size)` -/
def CircularBuffer.mk0 (size : Nat) : CircularBuffer :=
  ⟨List.replicate size JSVal.undef, size, 0, 0⟩

def CircularBuffer.write (b : CircularBuffer) (data : Int) : CircularBuffer :=
  { b with
    buffer := b.buffer.set b.writePtr (JSVal.num data),
    writePtr := (b.writePtr + 1) % b.size }

def CircularBuffer.read (b : CircularBuffer) : JSVal × CircularBuffer :=
  (b.buffer.getD b.readPtr JSVal.undef,
    { b with readPtr := (b.readPtr + 1) % b.size })

end Part006

/-- An operation on a circular buffer. -/
inductive CBOp where
  | write (v : Int)
  | read
deriving Repr, DecidableEq

/-- One operation on the counted buffer, collecting read results. -/
def Part005.step (acc : List JSVal × Part005.CircularBuffer) (op : CBOp) :
    List JSVal × Part005.CircularBuffer :=
  match op with
  | .write v => (acc.1, acc.2.write v)
  | .read =>
    let r := acc.2.read
    (acc.1 ++ [r.1], r.2)

/-- Run a sequence of operations on a fresh counted buffer; returns the
read results in order and the final state. -/
def Part005.runTrace (size : Nat) (ops : List CBOp) :
    List JSVal × Part005.CircularBuffer :=
  ops.foldl Part005.step ([], Part005.CircularBuffer.mk0 size)

/-- One operation on the uncounted buffer, collecting read results. -/
def Part006.step (acc : List JSVal × Part006.CircularBuffer) (op : CBOp) :
    List JSVal × Part006.CircularBuffer :=
  match op with
  | .write v => (acc.1, acc.2.write v)
  | .read =>
    let r := acc.2.read
    (acc.1 ++ [r.1], r.2)

/-- Run a sequence of operations on a fresh uncounted buffer. -/
def Part006.runTrace (size : Nat) (ops : List CBOp) :
    List JSVal × Part006.CircularBuffer :=
  ops.foldl Part006.step ([], Part006.CircularBuffer.mk0 size)

/-- A sequence of operations is safe for a buffer of `size` starting
with `count` unread items when it never reads an empty buffer and never
writes a full one. -/
def safeOps (size : Nat) : Nat → List CBOp → Bool
  | _, [] => true
  | count, .write _ :: rest => decide (count < size) && safeOps size (count + 1) rest
  | count, .read :: rest => decide (0 < count) && safeOps size (count - 1) rest

/-! ## `TestRunner` (src/unnamed/part_000, lines 15–62)

```js
class TestRunner {
    constructor() {
        this.tests = new Map();
        this.beforeEach = null;
        this.afterEach = null;
    }
    test(name, testFn) { this.tests.set(name, testFn); }
    before(fn) { this.beforeEach = fn; }
    after(fn) { this.afterEach = fn; }
    async runTests() {
        const results = { passed: 0, failed: 0, total: this.tests.size, failures: [] };
        for (const [name, testFn] of this.tests) {
            try {
                if (this.beforeEach) await this.beforeEach();
                await testFn();
                if (this.afterEach) await this.afterEach();
                results.passed++;
            } catch (error) {
                results.failed++;
                results.failures.push({ name, error });
            }
        }
        return results;
    }
}
```

A test entry carries the outcome each hook or body invocation would
have (each is invoked at most once per test, so per-test outcomes fully
determine a run); `hasBefore`/`hasAfter` model whether `beforeEach` /
`afterEach` are set.  The run is observed through the returned results
and a trace of hook/test invocations. -/

inductive TEvent where
  | beforeRun (name : String)
  | testRun (name : String)
  | afterRun (name : String)
deriving Repr, DecidableEq

structure TestOutcomes where
  before : Except String Unit
  body : Except String Unit
  after : Except String Unit
deriving Repr

structure TestRunner where
  tests : List (String × TestOutcomes)
  hasBefore : Bool
  hasAfter : Bool
deriving Repr

/-- `TestRunner.prototype.test`: `Map.set` keeps an existing name in
place and appends a new one. -/
def TestRunner.test (r : TestRunner) (name : String) (o : TestOutcomes) :
    TestRunner :=
  { r with tests :=
      if emHas r.tests name then emModify r.tests name (fun _ => o)
      else r.tests ++ [(name, o)] }

/-- The `try` block of one loop iteration: `beforeEach` (when set), the
test body, `afterEach` (when set), stopping at the first throw; returns
the block outcome and the invocations it performed. -/
def runOne (hasB hasA : Bool) (nm : String) (o : TestOutcomes) :
    Except String Unit × List TEvent :=
  let bStep : Except String Unit × List TEvent :=
    if hasB then (o.before, [TEvent.beforeRun nm]) else (.ok (), [])
  match bStep.1 with
  | .error e => (.error e, bStep.2)
  | .ok _ =>
    match o.body with
    | .error e => (.error e, bStep.2 ++ [TEvent.testRun nm])
    | .ok _ =>
      let aStep : Except String Unit × List TEvent :=
        if hasA then (o.after, [TEvent.afterRun nm]) else (.ok (), [])
      match aStep.1 with
      | .error e => (.error e, bStep.2 ++ [TEvent.testRun nm] ++ aStep.2)
      | .ok _ => (.ok (), bStep.2 ++ [TEvent.testRun nm] ++ aStep.2)

structure TestResults where
  passed : Nat
  failed : Nat
  total : Nat
  failures : List (String × String)
deriving Repr, DecidableEq

/-- One iteration of the `for ... of this.tests` loop: update the counts
and `failures` from the `try`/`catch` outcome. -/
def TestRunner.runStep (hasB hasA : Bool)
    (acc : TestResults × List TEvent) (t : String × TestOutcomes) :
    TestResults × List TEvent :=
  let r := runOne hasB hasA t.1 t.2
  match r.1 with
  | .ok _ => ({ acc.1 with passed := acc.1.passed + 1 }, acc.2 ++ r.2)
  | .error e =>
      ({ acc.1 with
          failed := acc.1.failed + 1
          failures := acc.1.failures ++ [(t.1, e)] },
        acc.2 ++ r.2)

/-- `TestRunner.prototype.runTests` (`total` is `tests.size`, set before
the loop). -/
def TestRunner.runTests (r : TestRunner) : TestResults × List TEvent :=
  r.tests.foldl (TestRunner.runStep r.hasBefore r.hasAfter)
    ({ passed := 0, failed := 0, total := r.tests.length, failures := [] }, [])

/-- The invocation schedule one test produces, written from the amended
claim: `beforeEach` runs first when set; the body runs unless
`beforeEach` threw; `afterEach` runs only when it is set and both
`beforeEach` and the body succeeded. -/
def specEvents (hasB hasA : Bool) (nm : String) (o : TestOutcomes) :
    List TEvent :=
  if hasB then
    match o.before with
    | .error _ => [TEvent.beforeRun nm]
    | .ok _ =>
      [TEvent.beforeRun nm] ++ [TEvent.testRun nm] ++
        (match o.body, hasA with
         | .ok _, true => [TEvent.afterRun nm]
         | _, _ => [])
  else
    [TEvent.testRun nm] ++
      (match o.body, hasA with
       | .ok _, true => [TEvent.afterRun nm]
       | _, _ => [])

/-- The error under which a test is recorded as failed (if any), written
from the amended claim: the `beforeEach` error when `beforeEach` is set
and throws, else the body error, else the `afterEach` error when
`afterEach` is set and throws. -/
def bodyAfterError (hasA : Bool) (o : TestOutcomes) : Option String :=
  match o.body with
  | .error e => some e
  | .ok _ =>
    if hasA then
      match o.after with
      | .error e => some e
      | .ok _ => none
    else none

def testError (hasB hasA : Bool) (o : TestOutcomes) : Option String :=
  if hasB then
    match o.before with
    | .error e => some e
    | .ok _ => bodyAfterError hasA o
  else bodyAfterError hasA o

/-! ## `circuitBreaker` (src/08_Error_Handling.js, lines 206–227)

```js
circuitBreaker: (operation, threshold = 5) => {
    let failures = 0;
    let lastFailure = null;
    return async (...args) => {
        if (failures >= threshold) {
            const timeSinceLastFailure = Date.now() - lastFailure;
            if (timeSinceLastFailure < 60000) { // 1 minute
                throw new Error('Circuit breaker open');
            }
            failures = 0;
        }
        try {
            return await operation(...args);
        } catch (error) {
            failures++;
            lastFailure = Date.now();
            throw error;
        }
    };
}
```

Each call of the wrapped function is modelled with the current clock
reading `now` and the outcome `op` the wrapped operation would have if
invoked.  `lastFailure` starts as `null`; in `Date.now() - null` the
`null` coerces to `0`, so `0` is a faithful initial value for the
subtraction (and `Nat` truncated subtraction agrees with the `< 60000`
test whenever `now` precedes `lastFailure`, where JavaScript would see
a negative difference — both sides stay below 60000). -/

structure CircuitBreakerState where
  failures : Nat
  lastFailure : Nat
deriving Repr, DecidableEq

def circuitBreakerInit : CircuitBreakerState := ⟨0, 0⟩

/-- The `try { return operation() } catch ...` part. -/
def circuitBreakerRun (st : CircuitBreakerState) (now : Nat)
    (op : Except String Int) : Except String Int × CircuitBreakerState :=
  match op with
  | .ok v => (.ok v, st)
  | .error e =>
    (.error e, { st with failures := st.failures + 1, lastFailure := now })

/-- One call of the function returned by `circuitBreaker`. -/
def circuitBreakerCall (threshold : Nat) (st : CircuitBreakerState)
    (now : Nat) (op : Except String Int) :
    Except String Int × CircuitBreakerState :=
  if st.failures ≥ threshold then
    if now - st.lastFailure < 60000 then
      (Except.error "Circuit breaker open", st)
    else circuitBreakerRun { st with failures := 0 } now op
  else circuitBreakerRun st now op

/-! ## Retry helpers

src/unnamed/part_004, lines 359–368:

```js
async function retry(fn, attempts = 3, delay = 1000) {
    for (let i = 0; i < attempts; i++) {
        try {
            return await fn();
        } catch (error) {
            if (i === attempts - 1) throw error;
            await new Promise(resolve => setTimeout(resolve, delay));
        }
    }
}
```

src/01_JS_Introduction.js, lines 461–473:

```js
class RetryMechanism {
    static async retry(operation, maxAttempts = 3, delay = 1000) {
        for (let attempt = 1; attempt <= maxAttempts; attempt++) {
            try {
                return await operation();
            } catch (error) {
                if (attempt === maxAttempts) throw error;
                await new Promise(resolve => setTimeout(resolve, delay));
                console.warn(`Retry attempt ` + attempt);
            }
        }
    }
}
```

`res i` is the outcome of the `i`-th invocation of the operation
(0-based).  A run is observed as its overall result (`.ok none` models
the `undefined` returned when the loop body never runs, possible only
for `attempts = 0`), the number of invocations, and the list of delays
awaited between consecutive attempts. -/

structure RetryTrace where
  result : Except String (Option Int)
  calls : Nat
  delays : List Nat
deriving Repr

def retryAux (res : Nat → Except String Int) (delay attempts i : Nat) :
    RetryTrace :=
  if _h : i < attempts then
    match res i with
    | .ok v => ⟨.ok (some v), 1, []⟩
    | .error e =>
      if i = attempts - 1 then ⟨.error e, 1, []⟩
      else
        let t := retryAux res delay attempts (i + 1)
        ⟨t.result, t.calls + 1, delay :: t.delays⟩
  else ⟨.ok none, 0, []⟩
termination_by attempts - i

/-- `retry(fn, attempts, delay)` from src/unnamed/part_004. -/
def retry (res : Nat → Except String Int) (attempts delay : Nat) :
    RetryTrace :=
  retryAux res delay attempts 0

def RetryMechanism.retryAux (res : Nat → Except String Int)
    (delay maxAttempts attempt : Nat) : RetryTrace :=
  if _h : attempt ≤ maxAttempts then
    match res (attempt - 1) with
    | .ok v => ⟨.ok (some v), 1, []⟩
    | .error e =>
      if attempt = maxAttempts then ⟨.error e, 1, []⟩
      else
        let t := RetryMechanism.retryAux res delay maxAttempts (attempt + 1)
        ⟨t.result, t.calls + 1, delay :: t.delays⟩
  else ⟨.ok none, 0, []⟩
termination_by maxAttempts + 1 - attempt

/-- `RetryMechanism.retry(operation, maxAttempts, delay)` from
src/01_JS_Introduction.js (1-based attempt counter). -/
def RetryMechanism.retry (res : Nat → Except String Int)
    (maxAttempts delay : Nat) : RetryTrace :=
  RetryMechanism.retryAux res delay maxAttempts 1

/-- `true` when an outcome is a throw. -/
def isErr (r : Except String Int) : Bool :=
  match r with
  | .error _ => true
  | .ok _ => false

/-! ## `Assertions.assertThrows` (src/unnamed/part_000, lines 93–100)

```js
static assertThrows(fn) {
    try {
        fn();
        throw new Error('Expected function to throw');
    } catch (error) {
        return error;
    }
}
```
-/

/-- JavaScript `try { body } catch (e) { handler(e) }` as a value:
a throw raised anywhere inside the `try` block — including one thrown
by the block's own code after `fn()` returns — is caught by the
attached `catch`. -/
def tryCatchBlock {α : Type} (body : Except String α)
    (handler : String → Except String α) : Except String α :=
  match body with
  | .ok v => .ok v
  | .error e => handler e

/-- `assertThrows` observed on the outcome of `fn()`: the result is
`.ok e` when the call returns the error `e` normally, `.error _` would
mean an exception escapes to the caller. -/
def assertThrows (fnOutcome : Except String Unit) : Except String String :=
  tryCatchBlock
    (fnOutcome.bind fun _ =>
      (Except.error "Expected function to throw" : Except String String))
    (fun error => .ok error)

/-! ## Module-export guards (claim C7)

Every file's export assignment, transcribed from the sources.  All 19
export sites in the repository have the exact shape
`if (typeof module !== 'undefined') { module.exports = {...}; }`;
eight files export nothing.  (`src/unnamed/part_001` mentions `module`
only as a local parameter of `Sandbox.use`, not as the global.) -/

inductive TopLevelExport where
  | none
  | guarded
  | unguarded
deriving Repr, DecidableEq

/-- Evaluating one export statement at a file's top level when the
global `module` may be undefined: `typeof module !== 'undefined'` never
throws on an undeclared identifier, so a guarded assignment skips
itself; a bare `module.exports = ...` with `module` undefined throws a
`ReferenceError`. -/
def evalExportStmt (e : TopLevelExport) (moduleDefined : Bool) :
    Except String Unit :=
  match e with
  | .none => .ok ()
  | .guarded => if moduleDefined then .ok () else .ok ()
  | .unguarded =>
    if moduleDefined then .ok ()
    else .error "ReferenceError: module is not defined"

/-- The script files of the repository with their export statements. -/
def repoFiles : List (String × List TopLevelExport) := [
  ("01_JS_Introduction.js", [.guarded, .guarded]),
  ("03_Operators_ControlFlow.js", [.guarded]),
  ("03_conversionOperation.js", []),
  ("04_comparision.js", []),
  ("05_Objects_OOP.js", [.guarded]),
  ("05_dataTypesInterviewPrep.js", [.guarded]),
  ("07_stringsGuide.js", []),
  ("08_Error_Handling.js", [.guarded, .guarded]),
  ("08_nums_and_math.js", []),
  ("10_Arrays.js", []),
  ("10_DOM_Manipulation.js", [.guarded]),
  ("11_Events.js", [.guarded]),
  ("13_ES6_Features.js", [.guarded]),
  ("15_Memory_Management.js", [.guarded]),
  ("16_Security.js", [.guarded]),
  ("18_Performance.js", [.guarded]),
  ("21_PWA.js", [.guarded]),
  ("unnamed/part_000", [.guarded]),
  ("unnamed/part_001", []),
  ("unnamed/part_002", [.guarded]),
  ("unnamed/part_003", []),
  ("unnamed/part_004", [.guarded]),
  ("unnamed/part_005", [.guarded]),
  ("unnamed/part_006", []),
  ("unnamed/part_007", [.guarded]),
  ("unnamed/part_008", [.guarded])]

/-! ## Lemmas about the `Map` model and `LRUCache` -/

theorem mapHas_iff_mapGet (m : List (Int × Int)) (k : Int) :
    mapHas m k = true ↔ ∃ v, mapGet m k = some v := by
  induction m with
  | nil => simp [mapHas, mapGet]
  | cons p t ih =>
    by_cases h : (p.1 == k) = true
    · simp [mapHas, mapGet, List.find?_cons_of_pos _ h, h]
    · have h' : (p.1 == k) = false := by simpa using h
      simp only [mapHas, mapGet] at ih
      simp [mapHas, mapGet, List.find?_cons_of_neg _ h, h', ih]

theorem mapGet_none_of_not_has (m : List (Int × Int)) (k : Int)
    (h : mapHas m k = false) : mapGet m k = none := by
  by_contra hne
  rcases Option.ne_none_iff_exists'.1 hne with ⟨v, hv⟩
  have := (mapHas_iff_mapGet m k).2 ⟨v, hv⟩
  simp [this] at h

theorem mapHas_mapDelete_self (m : List (Int × Int)) (k : Int) :
    mapHas (mapDelete m k) k = false := by
  simp only [mapHas, mapDelete]
  rw [List.any_eq_false]
  intro p hp
  have : p.1 ≠ k := by
    have := (List.mem_filter.1 hp).2
    simpa [bne_iff_ne] using this
  simp [this]

theorem mapSet_of_not_has (m : List (Int × Int)) (k v : Int)
    (h : mapHas m k = false) : mapSet m k v = m ++ [(k, v)] := by
  simp [mapSet, h]

theorem mapSet_mapDelete (m : List (Int × Int)) (k v : Int) :
    mapSet (mapDelete m k) k v = mapDelete m k ++ [(k, v)] :=
  mapSet_of_not_has _ _ _ (mapHas_mapDelete_self m k)

theorem mapDelete_length_lt (m : List (Int × Int)) (k : Int)
    (h : mapHas m k = true) : (mapDelete m k).length < m.length := by
  rcases (by simpa [mapHas] using h : ∃ p ∈ m, p.1 = k) with ⟨p, hp, hk⟩
  refine List.length_filter_lt_length_iff_exists.2 ⟨p, hp, ?_⟩
  simp [hk]

theorem mapDelete_length_le (m : List (Int × Int)) (k : Int) :
    (mapDelete m k).length ≤ m.length :=
  List.length_filter_le _ _

theorem mapSet_length_le (m : List (Int × Int)) (k v : Int) :
    (mapSet m k v).length ≤ m.length + 1 := by
  unfold mapSet
  split
  · simp
  · simp

theorem mapHas_false_tail (m : List (Int × Int)) (k : Int)
    (h : mapHas m k = false) : mapHas m.tail k = false := by
  cases m with
  | nil => simpa using h
  | cons p t =>
    simp only [mapHas, List.any_cons, Bool.or_eq_false_iff] at h
    simpa [mapHas] using h.2

theorem mapDeleteFirst_of_nodup (m : List (Int × Int))
    (hnd : (m.map Prod.fst).Nodup) (hne : m ≠ []) :
    mapDeleteFirst m = m.tail := by
  cases m with
  | nil => exact absurd rfl hne
  | cons p t =>
    have hmem : ∀ q ∈ t, q.1 ≠ p.1 := by
      intro q hq h
      have hh : p.1 ∉ t.map Prod.fst := (List.nodup_cons.1 (by simpa using hnd)).1
      exact hh (List.mem_map.2 ⟨q, hq, h⟩)
    show mapDelete (p :: t) p.1 = t
    simp only [mapDelete, List.filter_cons]
    have : (p.1 != p.1) = false := by simp
    rw [this]
    simp only [Bool.false_eq_true, if_false]
    exact List.filter_eq_self.2 fun q hq => by simpa [bne_iff_ne] using hmem q hq

/-- **C1.** For an `LRUCache` with `capacity ≥ 1` and a well-formed map
(each key held at most once, as a real `Map` guarantees):
`get` on a present key returns the stored value and re-appends the key at
the end of the insertion order (it becomes the most recently used);
`get` on an absent key returns `-1` and leaves the cache unchanged;
`put` on an existing key re-appends it with the new value and removes no
other entry; and `put` of a new key when the cache holds `capacity`
entries evicts exactly the first key in insertion order — the least
recently used entry, since every `get`/`put` re-appends the touched key
at the end — and keeps every other entry's value unchanged
(`c.cache.tail ++ [(k, v)]`). -/
theorem lru_cache_operations (c : LRUCache) (hcap : 1 ≤ c.capacity)
    (hnd : (c.cache.map Prod.fst).Nodup) :
    (∀ k v, mapGet c.cache k = some v →
      c.get k = (v, ⟨c.capacity, mapDelete c.cache k ++ [(k, v)]⟩)) ∧
    (∀ k, mapGet c.cache k = none → c.get k = (-1, c)) ∧
    (∀ k v, mapHas c.cache k = true →
      (c.put k v).cache = mapDelete c.cache k ++ [(k, v)] ∧
      ∀ p ∈ c.cache, p.1 ≠ k → p ∈ (c.put k v).cache) ∧
    (∀ k v, mapHas c.cache k = false → c.cache.length = c.capacity →
      (c.put k v).cache = c.cache.tail ++ [(k, v)]) := by
  refine ⟨?_, ?_, ?_, ?_⟩
  · intro k v hv
    have hhas : mapHas c.cache k = true := (mapHas_iff_mapGet c.cache k).2 ⟨v, hv⟩
    simp [LRUCache.get, hhas, hv, mapSet_mapDelete]
  · intro k hv
    have hhas : mapHas c.cache k = false := by
      rcases Bool.eq_false_or_eq_true (mapHas c.cache k) with h | h
      · rcases (mapHas_iff_mapGet c.cache k).1 h with ⟨v, hv2⟩
        rw [hv] at hv2
        cases hv2
      · exact h
    simp [LRUCache.get, hhas]
  · intro k v hhas
    have hcache : (c.put k v).cache = mapDelete c.cache k ++ [(k, v)] := by
      simp [LRUCache.put, hhas, mapSet_mapDelete]
    refine ⟨hcache, ?_⟩
    intro p hp hne
    rw [hcache]
    refine List.mem_append.2 (Or.inl ?_)
    exact List.mem_filter.2 ⟨hp, by simpa [bne_iff_ne] using hne⟩
  · intro k v hhas hlen
    have hne : c.cache ≠ [] := by
      intro h
      rw [h] at hlen
      simp at hlen
      omega
    have h1 : mapDeleteFirst c.cache = c.cache.tail :=
      mapDeleteFirst_of_nodup _ hnd hne
    have h2 : mapHas c.cache.tail k = false := mapHas_false_tail _ _ hhas
    have hge : c.cache.length ≥ c.capacity := le_of_eq hlen.symm
    simp [LRUCache.put, hhas, hge, h1, mapSet_of_not_has _ _ _ h2]

theorem lru_cache_operations_witness :
    LRUCache.get ⟨2, [(1, 10), (2, 20)]⟩ 1 = (10, ⟨2, [(2, 20), (1, 10)]⟩) := by
  have h := (lru_cache_operations ⟨2, [(1, 10), (2, 20)]⟩ (by decide)
    (by decide)).1 1 10 (by decide)
  simpa using h

theorem LRUCache.step_bound (capacity : Nat) (hcap : 1 ≤ capacity)
    (c : LRUCache)
    (hc : c.capacity = capacity) (hlen : c.cache.length ≤ capacity)
    (op : LRUOp) :
    (c.step op).capacity = capacity ∧ (c.step op).cache.length ≤ capacity := by
  cases op with
  | get k =>
    rcases Bool.eq_false_or_eq_true (mapHas c.cache k) with h | h
    · rcases (mapHas_iff_mapGet c.cache k).1 h with ⟨v, hv⟩
      have hstate : c.step (.get k) =
          ⟨c.capacity, mapSet (mapDelete c.cache k) k v⟩ := by
        simp [LRUCache.step, LRUCache.get, h, hv]
      rw [hstate]
      refine ⟨hc, ?_⟩
      have h1 := mapSet_length_le (mapDelete c.cache k) k v
      have h2 := mapDelete_length_lt c.cache k h
      simp only at h1 ⊢
      omega
    · have hstate : c.step (.get k) = c := by
        simp [LRUCache.step, LRUCache.get, h]
      rw [hstate]
      exact ⟨hc, hlen⟩
  | put k v =>
    refine ⟨hc, ?_⟩
    show (mapSet (if mapHas c.cache k = true then mapDelete c.cache k
      else if c.cache.length ≥ c.capacity then mapDeleteFirst c.cache
      else c.cache) k v).length ≤ capacity
    rcases Bool.eq_false_or_eq_true (mapHas c.cache k) with h | h
    · rw [if_pos h]
      have h1 := mapSet_length_le (mapDelete c.cache k) k v
      have h2 := mapDelete_length_lt c.cache k h
      omega
    · rw [if_neg (by simp [h])]
      by_cases hge : c.cache.length ≥ c.capacity
      · rw [if_pos hge]
        cases hm : c.cache with
        | nil =>
          exfalso
          rw [hm] at hge
          simp at hge
          omega
        | cons p t =>
          have hhead : mapDeleteFirst (p :: t) = mapDelete (p :: t) p.1 := rfl
          rw [hhead]
          have hp1 : mapHas (p :: t) p.1 = true := by simp [mapHas]
          have h1 := mapSet_length_le (mapDelete (p :: t) p.1) k v
          have h2 := mapDelete_length_lt (p :: t) p.1 hp1
          rw [hm] at hlen
          omega
      · rw [if_neg hge]
        have h1 := mapSet_length_le c.cache k v
        have h2 : c.cache.length < c.capacity := lt_of_not_le hge
        omega

/-- **C8.** Starting from `new LRUCache(capacity)` with `capacity ≥ 1`,
after any sequence of `get`/`put` operations the number of stored
entries is at most `capacity`: the bound is an invariant preserved by
every operation. -/
theorem lru_capacity_invariant (capacity : Nat) (hcap : 1 ≤ capacity)
    (ops : List LRUOp) :
    (LRUCache.runOps capacity ops).cache.length ≤ capacity := by
  suffices h : ∀ c : LRUCache, c.capacity = capacity →
      c.cache.length ≤ capacity →
      (ops.foldl LRUCache.step c).capacity = capacity ∧
      (ops.foldl LRUCache.step c).cache.length ≤ capacity by
    exact (h (LRUCache.mkEmpty capacity) rfl (by simp [LRUCache.mkEmpty])).2
  induction ops with
  | nil => exact fun c h1 h2 => ⟨h1, h2⟩
  | cons op rest ih =>
    intro c h1 h2
    have hs := LRUCache.step_bound capacity hcap c h1 h2 op
    exact ih _ hs.1 hs.2

theorem lru_capacity_invariant_witness :
    (LRUCache.runOps 1 [LRUOp.put 1 10, LRUOp.put 2 20, LRUOp.get 1]).cache.length ≤ 1 :=
  lru_capacity_invariant 1 (by decide) [LRUOp.put 1 10, LRUOp.put 2 20, LRUOp.get 1]

/-! ## Lemmas about the string-keyed `Map` model -/

theorem emHas_eq_isSome {α : Type} (m : List (String × α)) (ev : String) :
    emHas m ev = (emGet m ev).isSome := by
  induction m with
  | nil => rfl
  | cons p t ih =>
    by_cases h : p.1 = ev <;> simp [emHas, emGet, h, ih]

theorem emModify_cons {α : Type} (p : String × α) (t : List (String × α))
    (ev : String) (f : α → α) :
    emModify (p :: t) ev f =
      (if p.1 == ev then (p.1, f p.2) else p) :: emModify t ev f := rfl

theorem emGet_emModify {α : Type} (m : List (String × α)) (ev ev' : String)
    (f : α → α) :
    emGet (emModify m ev f) ev' =
      if ev' = ev then (emGet m ev').map f else emGet m ev' := by
  induction m with
  | nil => simp [emGet, emModify]
  | cons p t ih =>
    rw [emModify_cons]
    by_cases h1 : p.1 = ev
    · by_cases h2 : p.1 = ev'
      · subst h1
        subst h2
        simp [emGet]
      · subst h1
        have h2' : ¬(ev' = p.1) := fun h => h2 h.symm
        simp [emGet, h2, h2', ih]
    · by_cases h2 : p.1 = ev'
      · subst h2
        simp [emGet, h1]
      · simp [emGet, h1, h2, ih]

theorem emGet_append_new {α : Type} (m : List (String × α)) (ev ev' : String)
    (x : α) :
    emGet (m ++ [(ev, x)]) ev' =
      match emGet m ev' with
      | some v => some v
      | none => if ev = ev' then some x else none := by
  induction m with
  | nil =>
    by_cases h : ev = ev' <;> simp [emGet, h]
  | cons p t ih =>
    by_cases h : p.1 = ev' <;> simp [emGet, h, ih]

theorem emModify_of_not_has {α : Type} (m : List (String × α)) (ev : String)
    (f : α → α) (h : emHas m ev = false) : emModify m ev f = m := by
  induction m with
  | nil => rfl
  | cons p t ih =>
    simp only [emHas, Bool.or_eq_false_iff] at h
    simp only [emModify, List.map_cons] at ih ⊢
    rw [ih h.2]
    simp [h.1]

theorem emHas_false_of_not_mem_keys {α : Type} (m : List (String × α))
    (ev : String) (h : ev ∉ m.map Prod.fst) : emHas m ev = false := by
  induction m with
  | nil => rfl
  | cons p t ih =>
    simp only [List.map_cons, List.mem_cons, not_or] at h
    have hq : (p.1 == ev) = false := by
      simp only [beq_eq_false_iff_ne, ne_eq]
      exact fun hh => h.1 hh.symm
    simp [emHas, hq, ih h.2]

theorem emModify_self {α : Type} (m : List (String × α)) (ev : String) (v : α)
    (hget : emGet m ev = some v) (hnd : (m.map Prod.fst).Nodup) :
    emModify m ev (fun _ => v) = m := by
  induction m with
  | nil => cases hget
  | cons p t ih =>
    rw [List.map_cons] at hnd
    have hnd' := List.nodup_cons.1 hnd
    rw [emModify_cons]
    by_cases h : p.1 = ev
    · have hv : v = p.2 := by
        simp [emGet, h] at hget
        exact hget.symm
      have hnot : emHas t ev = false :=
        emHas_false_of_not_mem_keys t ev (h ▸ hnd'.1)
      rw [emModify_of_not_has t ev _ hnot]
      have hcond : (p.1 == ev) = true := by simp [h]
      rw [hcond]
      simp [hv]
    · have hget' : emGet t ev = some v := by
        simpa [emGet, h] using hget
      rw [ih hget' hnd'.2]
      simp [h]

theorem keys_emModify {α : Type} (m : List (String × α)) (ev : String)
    (f : α → α) : (emModify m ev f).map Prod.fst = m.map Prod.fst := by
  induction m with
  | nil => rfl
  | cons p t ih =>
    simp only [emModify, List.map_cons] at ih ⊢
    rw [ih]
    by_cases h : p.1 = ev <;> simp [h]

theorem not_mem_keys_of_emHas_false {α : Type} (m : List (String × α))
    (ev : String) (h : emHas m ev = false) : ev ∉ m.map Prod.fst := by
  induction m with
  | nil => simp
  | cons p t ih =>
    simp only [emHas, Bool.or_eq_false_iff] at h
    simp only [List.map_cons, List.mem_cons, not_or]
    refine ⟨?_, ih h.2⟩
    intro hh
    rw [hh] at h
    simp at h

/-! ## Lemmas about the emitter variants -/

theorem regsFor_cons (e : String) (c : Nat) (rest : List (String × Nat))
    (ev : String) :
    regsFor ((e, c) :: rest) ev =
      if e = ev then c :: regsFor rest ev else regsFor rest ev := by
  by_cases h : e = ev <;> simp [regsFor, List.filter_cons, h]

theorem emGetD_on_new {α : Type} (m : List (String × α)) (e ev : String)
    (x d : α) :
    emGetD (m ++ [(e, x)]) ev d =
      if emHas m ev then emGetD m ev d
      else if e = ev then x else d := by
  rw [emHas_eq_isSome]
  unfold emGetD
  rw [emGet_append_new]
  cases h : emGet m ev with
  | none => by_cases he : e = ev <;> simp [he]
  | some v => simp

theorem emGetD_of_not_has {α : Type} (m : List (String × α)) (ev : String)
    (d : α) (h : emHas m ev = false) : emGetD m ev d = d := by
  unfold emGetD
  rw [emHas_eq_isSome] at h
  cases hg : emGet m ev with
  | none => rfl
  | some v => rw [hg] at h; cases h

/-- The shared `on` pattern `if (!map.has(e)) map.set(e, empty);
map.get(e).mutate()`, observed through lookups: the value under `e` is
mutated (starting from `d` when absent) and every other key is
untouched. -/
theorem emGetD_ensure_modify_eq {α : Type} (m0 : List (String × α))
    (e : String) (d : α) (f : α → α) :
    emGetD (emModify (if emHas m0 e then m0 else m0 ++ [(e, d)]) e f) e d =
      f (emGetD m0 e d) := by
  rcases Bool.eq_false_or_eq_true (emHas m0 e) with hh | hh
  · rw [show (if emHas m0 e = true then m0 else m0 ++ [(e, d)]) = m0
        from if_pos hh]
    unfold emGetD
    rw [emGet_emModify, if_pos (Eq.refl e)]
    have hs : (emGet m0 e).isSome = true := by
      rw [← emHas_eq_isSome]
      exact hh
    cases hg : emGet m0 e with
    | none => rw [hg] at hs; cases hs
    | some xs => simp
  · rw [show (if emHas m0 e = true then m0 else m0 ++ [(e, d)]) = m0 ++ [(e, d)]
        from if_neg (by simp [hh])]
    have hg : emGet m0 e = none := by
      rw [emHas_eq_isSome] at hh
      exact Option.not_isSome_iff_eq_none.1 (by simp [hh])
    unfold emGetD
    rw [emGet_emModify, if_pos (Eq.refl e), emGet_append_new, hg]
    simp

theorem emGetD_ensure_modify_ne {α : Type} (m0 : List (String × α))
    (e ev : String) (d : α) (f : α → α) (h : ev ≠ e) :
    emGetD (emModify (if emHas m0 e then m0 else m0 ++ [(e, d)]) e f) ev d =
      emGetD m0 ev d := by
  rcases Bool.eq_false_or_eq_true (emHas m0 e) with hh | hh
  · rw [show (if emHas m0 e = true then m0 else m0 ++ [(e, d)]) = m0
        from if_pos hh]
    unfold emGetD
    rw [emGet_emModify, if_neg h]
  · rw [show (if emHas m0 e = true then m0 else m0 ++ [(e, d)]) = m0 ++ [(e, d)]
        from if_neg (by simp [hh])]
    unfold emGetD
    rw [emGet_emModify, if_neg h, emGet_append_new]
    cases hg : emGet m0 ev with
    | none => by_cases he : e = ev <;> simp [he]
    | some v => simp

theorem eventEmitter_on_lookup (s : EventEmitter) (e : String) (c : Nat)
    (ev : String) :
    emGetD (s.on e c).events ev [] =
      if ev = e then emGetD s.events ev [] ++ [c]
      else emGetD s.events ev [] := by
  by_cases h : ev = e
  · rw [if_pos h]
    subst h
    exact emGetD_ensure_modify_eq s.events ev [] (fun cbs => cbs ++ [c])
  · rw [if_neg h]
    exact emGetD_ensure_modify_ne s.events e ev [] (fun cbs => cbs ++ [c]) h

theorem buildEE_lookup (regs : List (String × Nat)) (s : EventEmitter)
    (ev : String) :
    emGetD (regs.foldl (fun s r => s.on r.1 r.2) s).events ev [] =
      emGetD s.events ev [] ++ regsFor regs ev := by
  induction regs generalizing s with
  | nil => simp [regsFor]
  | cons r rest ih =>
    obtain ⟨e, c⟩ := r
    rw [List.foldl_cons, ih, eventEmitter_on_lookup, regsFor_cons]
    by_cases h : ev = e
    · subst h
      simp
    · rw [if_neg h, if_neg (fun hh => h hh.symm)]

theorem eventEmitter_emit_eq (s : EventEmitter) (ev : String) (d : Int) :
    s.emit ev d = ((emGetD s.events ev []).map (fun cb => (cb, d)), s) := by
  unfold EventEmitter.emit
  rcases Bool.eq_false_or_eq_true (emHas s.events ev) with h | h
  · rw [if_pos h]
  · rw [if_neg (by simp [h])]
    have hg : emGet s.events ev = none := by
      rw [emHas_eq_isSome] at h
      exact Option.not_isSome_iff_eq_none.1 (by simp [h])
    simp [emGetD, hg]

theorem memEmitter_on_lookup (s : MemoryEfficientEmitter)
    (e : String) (c : Nat) (ev : String) :
    emGetD (s.on e c).events ev [] =
      if ev = e then setAdd (emGetD s.events ev []) c
      else emGetD s.events ev [] := by
  by_cases h : ev = e
  · rw [if_pos h]
    subst h
    exact emGetD_ensure_modify_eq s.events ev [] (fun cbs => setAdd cbs c)
  · rw [if_neg h]
    exact emGetD_ensure_modify_ne s.events e ev [] (fun cbs => setAdd cbs c) h

theorem buildMEE_lookup (regs : List (String × Nat))
    (s : MemoryEfficientEmitter) (ev : String) :
    emGetD (regs.foldl (fun s r => s.on r.1 r.2) s).events ev [] =
      (regsFor regs ev).foldl setAdd (emGetD s.events ev []) := by
  induction regs generalizing s with
  | nil => simp [regsFor]
  | cons r rest ih =>
    obtain ⟨e, c⟩ := r
    rw [List.foldl_cons, ih, memEmitter_on_lookup, regsFor_cons]
    by_cases h : ev = e
    · subst h
      simp
    · rw [if_neg h, if_neg (fun hh => h hh.symm)]

theorem foldl_setAdd_of_nodup (l : List Nat) (acc : List Nat)
    (hl : l.Nodup) (hd : ∀ x ∈ l, x ∉ acc) :
    l.foldl setAdd acc = acc ++ l := by
  induction l generalizing acc with
  | nil => simp
  | cons x t ih =>
    have hxmem : x ∉ acc := hd x (List.mem_cons_self x t)
    have hx : setAdd acc x = acc ++ [x] := by
      simp only [setAdd]
      rw [if_neg (by simpa using hxmem)]
    have hnd := List.nodup_cons.1 hl
    have harg : ∀ y ∈ t, y ∉ acc ++ [x] := by
      intro y hy
      simp only [List.mem_append, List.mem_singleton, not_or]
      exact ⟨hd y (List.mem_cons_of_mem x hy), fun hh => hnd.1 (hh ▸ hy)⟩
    rw [List.foldl_cons, hx, ih (acc ++ [x]) hnd.2 harg]
    simp

theorem memEmitter_emit_eq (s : MemoryEfficientEmitter)
    (ev : String) (d : Int) :
    s.emit ev d = ((emGetD s.events ev []).map (fun cb => (cb, d)), s) := by
  unfold MemoryEfficientEmitter.emit
  cases h : emGet s.events ev with
  | none => simp [emGetD, h]
  | some callbacks => simp [emGetD, h]

theorem eventSystem_on_lookup (s : EventSystem) (e : String) (c : Nat)
    (b : Bool) (ev : String) :
    emGetD (s.on e c b).listeners ev [] =
      if ev = e then emGetD s.listeners ev [] ++ [⟨s.nextId, c, b⟩]
      else emGetD s.listeners ev [] := by
  by_cases h : ev = e
  · rw [if_pos h]
    subst h
    exact emGetD_ensure_modify_eq s.listeners ev []
      (fun ls => ls ++ [⟨s.nextId, c, b⟩])
  · rw [if_neg h]
    exact emGetD_ensure_modify_ne s.listeners e ev []
      (fun ls => ls ++ [⟨s.nextId, c, b⟩]) h

theorem keys_ensure {α : Type} (m0 : List (String × α)) (e : String) (d : α)
    (hnd : (m0.map Prod.fst).Nodup) :
    (((if emHas m0 e then m0 else m0 ++ [(e, d)]).map Prod.fst)).Nodup := by
  rcases Bool.eq_false_or_eq_true (emHas m0 e) with hh | hh
  · rw [show (if emHas m0 e = true then m0 else m0 ++ [(e, d)]) = m0
        from if_pos hh]
    exact hnd
  · rw [show (if emHas m0 e = true then m0 else m0 ++ [(e, d)]) = m0 ++ [(e, d)]
        from if_neg (by simp [hh])]
    rw [List.map_append, List.nodup_append]
    refine ⟨hnd, by simp, ?_⟩
    intro a ha hb
    simp only [List.map_cons, List.map_nil, List.mem_singleton] at hb
    subst hb
    exact (not_mem_keys_of_emHas_false m0 a hh) ha

theorem EventSystem.on_keys_nodup (s : EventSystem) (e : String) (c : Nat)
    (b : Bool) (hnd : (s.listeners.map Prod.fst).Nodup) :
    ((s.on e c b).listeners.map Prod.fst).Nodup := by
  show ((emModify (if emHas s.listeners e then s.listeners
      else s.listeners ++ [(e, [])]) e
      (fun ls => ls ++ [⟨s.nextId, c, b⟩])).map Prod.fst).Nodup
  rw [keys_emModify]
  exact keys_ensure s.listeners e [] hnd

theorem buildES_keys_nodup (regs : List (String × Nat)) (s : EventSystem)
    (h : (s.listeners.map Prod.fst).Nodup) :
    ((regs.foldl (fun s r => s.on r.1 r.2 false) s).listeners.map
      Prod.fst).Nodup := by
  induction regs generalizing s with
  | nil => exact h
  | cons r rest ih => exact ih _ (EventSystem.on_keys_nodup s r.1 r.2 false h)

theorem buildES_invariant (regs : List (String × Nat)) (s : EventSystem)
    (ev : String) :
    ((emGetD (regs.foldl (fun s r => s.on r.1 r.2 false) s).listeners ev
        []).map Listener.callback =
      (emGetD s.listeners ev []).map Listener.callback ++ regsFor regs ev) ∧
    (∀ l ∈ emGetD (regs.foldl (fun s r => s.on r.1 r.2 false) s).listeners
        ev [],
      l ∈ emGetD s.listeners ev [] ∨ l.once = false) := by
  induction regs generalizing s with
  | nil => exact ⟨by simp [regsFor], fun l hl => Or.inl hl⟩
  | cons r rest ih =>
    obtain ⟨e, c⟩ := r
    rw [List.foldl_cons]
    refine ⟨?_, ?_⟩
    · rw [(ih (s.on e c false)).1, eventSystem_on_lookup, regsFor_cons]
      by_cases h : ev = e
      · subst h
        simp
      · rw [if_neg h, if_neg (fun hh => h hh.symm)]
    · intro l hl
      rcases (ih (s.on e c false)).2 l hl with hmem | ho
      · rw [eventSystem_on_lookup] at hmem
        by_cases h : ev = e
        · rw [if_pos h] at hmem
          rcases List.mem_append.1 hmem with h' | h'
          · exact Or.inl h'
          · right
            have hle : l = ⟨s.nextId, c, false⟩ := by simpa using h'
            rw [hle]
        · rw [if_neg h] at hmem
          exact Or.inl hmem
      · exact Or.inr ho

theorem emitAux_no_once (d : Int) (remaining current : List Listener)
    (honce : ∀ l ∈ remaining, l.once = false)
    (hmem : ∀ l ∈ remaining, l ∈ current) :
    emitAux d remaining current =
      (remaining.map (fun l => (l.callback, d)), current) := by
  induction remaining with
  | nil => rfl
  | cons l rest ih =>
    have hl : l ∈ current := hmem l (List.mem_cons_self l rest)
    have hany : current.any (fun x => x.id == l.id) = true :=
      List.any_eq_true.2 ⟨l, hl, by simp⟩
    have ho : l.once = false := honce l (List.mem_cons_self l rest)
    have hrec := ih (fun x hx => honce x (List.mem_cons_of_mem l hx))
      (fun x hx => hmem x (List.mem_cons_of_mem l hx))
    simp [emitAux, hany, ho, hrec]

theorem EventSystem.emit_no_once (s : EventSystem) (ev : String) (d : Int)
    (hkeys : (s.listeners.map Prod.fst).Nodup)
    (honce : ∀ l ∈ emGetD s.listeners ev [], l.once = false) :
    s.emit ev d =
      ((emGetD s.listeners ev []).map (fun l => (l.callback, d)), s) := by
  unfold EventSystem.emit
  rcases Bool.eq_false_or_eq_true (emHas s.listeners ev) with h | h
  · have hs : (emGet s.listeners ev).isSome = true := by
      rw [← emHas_eq_isSome]
      exact h
    rcases Option.isSome_iff_exists.1 hs with ⟨ls0, hv⟩
    have hD : emGetD s.listeners ev [] = ls0 := by
      unfold emGetD
      rw [hv]
      rfl
    have honce' : ∀ l ∈ ls0, l.once = false := by
      intro l hl
      exact honce l (by rw [hD]; exact hl)
    rw [if_pos h, hD]
    simp only [emitAux_no_once d ls0 ls0 honce' (fun l hl => hl)]
    simp [emModify_self s.listeners ev ls0 hv hkeys]
  · rw [if_neg (by simp [h])]
    have hg : emGet s.listeners ev = none := by
      rw [emHas_eq_isSome] at h
      exact Option.not_isSome_iff_eq_none.1 (by simp [h])
    simp [emGetD, hg]

/-- **C2 (counterexample).** The claim quantifies over *every* sequence of
`on(event, callback)` registrations and asserts that `emit` invokes each
registered callback exactly once per emit, uniformly across the three
variants.  Registering the same callback twice for the same event
refutes this: the array-backed `EventEmitter` then invokes the callback
twice per emit, while the `Set`-backed `MemoryEfficientEmitter`
deduplicates the registration and invokes it once — so on this input
the variants disagree and at least one of them violates "each once per
emit". -/
theorem emitters_once_per_emit_counterexample :
    ((buildEE [("e", 0), ("e", 0)]).emit "e" 5).1 = [(0, 5), (0, 5)] ∧
    ((buildMEE [("e", 0), ("e", 0)]).emit "e" 5).1 = [(0, 5)] :=
  ⟨rfl, rfl⟩

/-- **C2 (amended).** For every sequence of `on(event, callback)`
registrations in which no callback is registered twice for the same
event, each of the three emitter variants (`EventEmitter`,
`EventSystem` via its two-argument `on`, `MemoryEfficientEmitter`)
behaves as the claim states: `emit(event, data)` invokes exactly the
callbacks registered for that event, each once, in registration order,
passing `data` to each, and leaves the emitter unchanged; in particular
an emit for an event with no registered listeners performs no calls. -/
theorem emitters_emit_registered (regs : List (String × Nat)) (ev : String)
    (d : Int) (h : (regsFor regs ev).Nodup) :
    (buildEE regs).emit ev d =
      ((regsFor regs ev).map (fun c => (c, d)), buildEE regs) ∧
    (buildMEE regs).emit ev d =
      ((regsFor regs ev).map (fun c => (c, d)), buildMEE regs) ∧
    (buildES regs).emit ev d =
      ((regsFor regs ev).map (fun c => (c, d)), buildES regs) := by
  refine ⟨?_, ?_, ?_⟩
  · rw [eventEmitter_emit_eq]
    have hl : emGetD (buildEE regs).events ev [] = regsFor regs ev := by
      have hb := buildEE_lookup regs ⟨[]⟩ ev
      simpa [emGetD, emGet] using hb
    rw [hl]
  · rw [memEmitter_emit_eq]
    have hl : emGetD (buildMEE regs).events ev [] = regsFor regs ev := by
      have hb := buildMEE_lookup regs ⟨[]⟩ ev
      have h0 : emGetD (⟨[]⟩ : MemoryEfficientEmitter).events ev [] =
          ([] : List Nat) := rfl
      rw [h0] at hb
      rw [show buildMEE regs =
        regs.foldl (fun s r => s.on r.1 r.2) ⟨[]⟩ from rfl]
      rw [hb, foldl_setAdd_of_nodup _ _ h (by intro x hx; simp)]
      simp
    rw [hl]
  · have hn : ((buildES regs).listeners.map Prod.fst).Nodup :=
      buildES_keys_nodup regs ⟨[], 0⟩ (by simp)
    have hinv := buildES_invariant regs ⟨[], 0⟩ ev
    have h0 : emGetD (⟨[], 0⟩ : EventSystem).listeners ev [] =
        ([] : List Listener) := rfl
    rw [h0] at hinv
    have hcb : (emGetD (buildES regs).listeners ev []).map
        Listener.callback = regsFor regs ev := by
      have hb := hinv.1
      simpa using hb
    have honce : ∀ l ∈ emGetD (buildES regs).listeners ev [],
        l.once = false := by
      intro l hl
      rcases hinv.2 l hl with hmem | ho
      · simp at hmem
      · exact ho
    rw [EventSystem.emit_no_once (buildES regs) ev d hn honce]
    have hmm : (emGetD (buildES regs).listeners ev []).map
        (fun l => (l.callback, d)) =
        ((emGetD (buildES regs).listeners ev []).map
          Listener.callback).map (fun c => (c, d)) := by
      rw [List.map_map]
      rfl
    rw [hmm, hcb]

theorem emitters_emit_registered_witness :
    (buildEE [("e", 0), ("e", 1), ("f", 2)]).emit "e" 5 =
      ((regsFor [("e", 0), ("e", 1), ("f", 2)] "e").map (fun c => (c, 5)),
        buildEE [("e", 0), ("e", 1), ("f", 2)]) ∧
    (buildMEE [("e", 0), ("e", 1), ("f", 2)]).emit "e" 5 =
      ((regsFor [("e", 0), ("e", 1), ("f", 2)] "e").map (fun c => (c, 5)),
        buildMEE [("e", 0), ("e", 1), ("f", 2)]) ∧
    (buildES [("e", 0), ("e", 1), ("f", 2)]).emit "e" 5 =
      ((regsFor [("e", 0), ("e", 1), ("f", 2)] "e").map (fun c => (c, 5)),
        buildES [("e", 0), ("e", 1), ("f", 2)]) :=
  emitters_emit_registered [("e", 0), ("e", 1), ("f", 2)] "e" 5 (by decide)

/-! ## Lemmas about the two `CircularBuffer` variants -/

theorem part005_fold_size (ops : List CBOp) :
    ∀ acc : List JSVal × Part005.CircularBuffer,
      (ops.foldl Part005.step acc).2.size = acc.2.size := by
  induction ops with
  | nil => intro acc; rfl
  | cons op rest ih =>
    intro acc
    rw [List.foldl_cons, ih]
    cases op with
    | write v => rfl
    | read =>
      show (acc.2.read).2.size = acc.2.size
      unfold Part005.CircularBuffer.read
      by_cases hc : acc.2.count = 0
      · rw [if_pos hc]
      · rw [if_neg hc]

theorem part005_fold_count (ops : List CBOp) :
    ∀ acc : List JSVal × Part005.CircularBuffer,
      acc.2.count ≤ acc.2.size →
      (ops.foldl Part005.step acc).2.count ≤
        (ops.foldl Part005.step acc).2.size := by
  induction ops with
  | nil => intro acc h; exact h
  | cons op rest ih =>
    intro acc h
    rw [List.foldl_cons]
    apply ih
    cases op with
    | write v =>
      show (acc.2.write v).count ≤ (acc.2.write v).size
      simp only [Part005.CircularBuffer.write]
      omega
    | read =>
      show (acc.2.read).2.count ≤ (acc.2.read).2.size
      unfold Part005.CircularBuffer.read
      by_cases hc : acc.2.count = 0
      · rw [if_pos hc]
        exact h
      · rw [if_neg hc]
        simp only
        omega

/-- **C10.** For the counted `CircularBuffer` (src/unnamed/part_005):
every sequence of `write`/`read` operations from a fresh buffer keeps
`count` within `0 ≤ count ≤ size` (the lower bound is inherent in the
`Nat` model, the upper bound is the stated invariant), and `read()` on
an empty buffer (`count = 0`) returns `null` and leaves the whole
state — buffer, read pointer, write pointer, and count — unchanged. -/
theorem part005_circular_buffer (size : Nat) (ops : List CBOp) :
    (Part005.runTrace size ops).2.count ≤ size ∧
    (∀ b : Part005.CircularBuffer, b.count = 0 →
      b.read = (JSVal.null, b)) := by
  constructor
  · have h1 := part005_fold_count ops ([], Part005.CircularBuffer.mk0 size)
      (by simp [Part005.CircularBuffer.mk0])
    have h2 := part005_fold_size ops ([], Part005.CircularBuffer.mk0 size)
    unfold Part005.runTrace
    rw [show (([], Part005.CircularBuffer.mk0 size) :
        List JSVal × Part005.CircularBuffer).2.size = size from rfl] at h2
    rw [h2] at h1
    exact h1
  · intro b hb
    unfold Part005.CircularBuffer.read
    rw [if_pos hb]

theorem part005_circular_buffer_witness :
    (Part005.runTrace 2 [CBOp.write 5, CBOp.read]).2.count ≤ 2 ∧
    (Part005.CircularBuffer.mk0 2).read =
      (JSVal.null, Part005.CircularBuffer.mk0 2) :=
  ⟨(part005_circular_buffer 2 [CBOp.write 5, CBOp.read]).1,
    (part005_circular_buffer 2 []).2 (Part005.CircularBuffer.mk0 2) rfl⟩

/-- **C4 (counterexample).** The claim asserts three identical
`CircularBuffer` implementations; the repository contains exactly two
(`src/unnamed/part_005` counted, `src/unnamed/part_006` uncounted) and
they are observably different: on a fresh buffer of size 1, the
sequence `write(7); read(); read()` yields reads `7, null` in the
counted variant but `7, 7` in the uncounted one (its unconditional
`read` re-reads the slot after the pointer wraps). -/
theorem circularbuffer_not_equivalent :
    (Part005.runTrace 1 [CBOp.write 7, CBOp.read, CBOp.read]).1 =
      [JSVal.num 7, JSVal.null] ∧
    (Part006.runTrace 1 [CBOp.write 7, CBOp.read, CBOp.read]).1 =
      [JSVal.num 7, JSVal.num 7] ∧
    (Part005.runTrace 1 [CBOp.write 7, CBOp.read, CBOp.read]).1 ≠
      (Part006.runTrace 1 [CBOp.write 7, CBOp.read, CBOp.read]).1 :=
  ⟨rfl, rfl, by decide⟩

theorem cb_equiv_fold (size : Nat) (ops : List CBOp) :
    ∀ (t5 : List JSVal × Part005.CircularBuffer)
      (t6 : List JSVal × Part006.CircularBuffer),
      t5.1 = t6.1 → t5.2.size = size → t6.2.size = size →
      t5.2.buffer = t6.2.buffer → t5.2.writePtr = t6.2.writePtr →
      t5.2.readPtr = t6.2.readPtr →
      safeOps size t5.2.count ops = true →
      (ops.foldl Part005.step t5).1 = (ops.foldl Part006.step t6).1 ∧
      (ops.foldl Part005.step t5).2.buffer =
        (ops.foldl Part006.step t6).2.buffer ∧
      (ops.foldl Part005.step t5).2.writePtr =
        (ops.foldl Part006.step t6).2.writePtr ∧
      (ops.foldl Part005.step t5).2.readPtr =
        (ops.foldl Part006.step t6).2.readPtr := by
  induction ops with
  | nil =>
    intro t5 t6 h1 _ _ hb hw hr _
    exact ⟨h1, hb, hw, hr⟩
  | cons op rest ih =>
    intro t5 t6 h1 hs5 hs6 hb hw hr hsafe
    rw [List.foldl_cons, List.foldl_cons]
    cases op with
    | write v =>
      simp only [safeOps, Bool.and_eq_true, decide_eq_true_eq] at hsafe
      apply ih
      · exact h1
      · show (t5.2.write v).size = size
        simpa [Part005.CircularBuffer.write] using hs5
      · show (t6.2.write v).size = size
        simpa [Part006.CircularBuffer.write] using hs6
      · show (t5.2.write v).buffer = (t6.2.write v).buffer
        simp [Part005.CircularBuffer.write, Part006.CircularBuffer.write,
          hb, hw]
      · show (t5.2.write v).writePtr = (t6.2.write v).writePtr
        simp [Part005.CircularBuffer.write, Part006.CircularBuffer.write,
          hw, hs5, hs6]
      · show (t5.2.write v).readPtr = (t6.2.write v).readPtr
        simp [Part005.CircularBuffer.write, Part006.CircularBuffer.write, hr]
      · show safeOps size (t5.2.write v).count rest = true
        have hcnt : (t5.2.write v).count = t5.2.count + 1 := by
          simp only [Part005.CircularBuffer.write, hs5]
          omega
        rw [hcnt]
        exact hsafe.2
    | read =>
      simp only [safeOps, Bool.and_eq_true, decide_eq_true_eq] at hsafe
      have hc : ¬ t5.2.count = 0 := by omega
      have hread5 : t5.2.read =
          (t5.2.buffer.getD t5.2.readPtr JSVal.undef,
            { t5.2 with
                readPtr := (t5.2.readPtr + 1) % t5.2.size
                count := t5.2.count - 1 }) := by
        unfold Part005.CircularBuffer.read
        rw [if_neg hc]
      apply ih
      · show t5.1 ++ [(t5.2.read).1] = t6.1 ++ [(t6.2.read).1]
        rw [hread5, h1]
        show t6.1 ++ [t5.2.buffer.getD t5.2.readPtr JSVal.undef] =
          t6.1 ++ [t6.2.buffer.getD t6.2.readPtr JSVal.undef]
        rw [hb, hr]
      · show (t5.2.read).2.size = size
        rw [hread5]
        exact hs5
      · show (t6.2.read).2.size = size
        exact hs6
      · show (t5.2.read).2.buffer = (t6.2.read).2.buffer
        rw [hread5]
        exact hb
      · show (t5.2.read).2.writePtr = (t6.2.read).2.writePtr
        rw [hread5]
        exact hw
      · show (t5.2.read).2.readPtr = (t6.2.read).2.readPtr
        rw [hread5]
        show (t5.2.readPtr + 1) % t5.2.size = (t6.2.readPtr + 1) % t6.2.size
        rw [hr, hs5, hs6]
      · show safeOps size (t5.2.read).2.count rest = true
        rw [hread5]
        exact hsafe.2

/-- **C4 (amended).** The repository contains two `CircularBuffer`
implementations, not three, and they are not identical in behaviour
(see the counterexample).  What does hold: on every operation sequence
that never reads an empty buffer and never writes a full one, the two
implementations produce the same sequence of read results and the same
final buffer contents and pointers (the counted variant additionally
maintains its `count` field). -/
theorem circularbuffer_refinement (size : Nat) (ops : List CBOp)
    (h : safeOps size 0 ops = true) :
    (Part005.runTrace size ops).1 = (Part006.runTrace size ops).1 ∧
    (Part005.runTrace size ops).2.buffer =
      (Part006.runTrace size ops).2.buffer ∧
    (Part005.runTrace size ops).2.writePtr =
      (Part006.runTrace size ops).2.writePtr ∧
    (Part005.runTrace size ops).2.readPtr =
      (Part006.runTrace size ops).2.readPtr :=
  cb_equiv_fold size ops ([], Part005.CircularBuffer.mk0 size)
    ([], Part006.CircularBuffer.mk0 size) rfl rfl rfl rfl rfl rfl h

theorem circularbuffer_refinement_witness :
    (Part005.runTrace 2 [CBOp.write 7, CBOp.write 8, CBOp.read]).1 =
      (Part006.runTrace 2 [CBOp.write 7, CBOp.write 8, CBOp.read]).1 ∧
    (Part005.runTrace 2 [CBOp.write 7, CBOp.write 8, CBOp.read]).2.buffer =
      (Part006.runTrace 2 [CBOp.write 7, CBOp.write 8, CBOp.read]).2.buffer ∧
    (Part005.runTrace 2 [CBOp.write 7, CBOp.write 8, CBOp.read]).2.writePtr =
      (Part006.runTrace 2 [CBOp.write 7, CBOp.write 8, CBOp.read]).2.writePtr ∧
    (Part005.runTrace 2 [CBOp.write 7, CBOp.write 8, CBOp.read]).2.readPtr =
      (Part006.runTrace 2 [CBOp.write 7, CBOp.write 8, CBOp.read]).2.readPtr :=
  circularbuffer_refinement 2 [CBOp.write 7, CBOp.write 8, CBOp.read]
    (by decide)

/-! ## Lemmas about `TestRunner` -/

theorem runOne_events (hasB hasA : Bool) (nm : String) (o : TestOutcomes) :
    (runOne hasB hasA nm o).2 = specEvents hasB hasA nm o := by
  obtain ⟨ob, obody, oafter⟩ := o
  cases hasB <;> cases ob <;> cases obody <;> cases hasA <;> cases oafter <;>
    simp [runOne, specEvents]

theorem runOne_result (hasB hasA : Bool) (nm : String) (o : TestOutcomes) :
    (runOne hasB hasA nm o).1 =
      (match testError hasB hasA o with
       | some e => Except.error e
       | none => Except.ok ()) := by
  obtain ⟨ob, obody, oafter⟩ := o
  cases hasB <;> cases ob <;> cases obody <;> cases hasA <;> cases oafter <;>
    simp [runOne, testError, bodyAfterError]

theorem runStep_char (hasB hasA : Bool) (acc : TestResults × List TEvent)
    (t : String × TestOutcomes) :
    TestRunner.runStep hasB hasA acc t =
      (match testError hasB hasA t.2 with
       | none =>
         ({ acc.1 with passed := acc.1.passed + 1 },
           acc.2 ++ specEvents hasB hasA t.1 t.2)
       | some e =>
         ({ acc.1 with
             failed := acc.1.failed + 1
             failures := acc.1.failures ++ [(t.1, e)] },
           acc.2 ++ specEvents hasB hasA t.1 t.2)) := by
  simp only [TestRunner.runStep]
  rw [runOne_result]
  cases htest : testError hasB hasA t.2 with
  | none => simp [runOne_events]
  | some e => simp [runOne_events]

theorem runTests_fold (hasB hasA : Bool) :
    ∀ (ts : List (String × TestOutcomes)) (acc : TestResults × List TEvent),
      (ts.foldl (TestRunner.runStep hasB hasA) acc).1.total = acc.1.total ∧
      (ts.foldl (TestRunner.runStep hasB hasA) acc).1.passed +
        (ts.foldl (TestRunner.runStep hasB hasA) acc).1.failed =
        acc.1.passed + acc.1.failed + ts.length ∧
      (ts.foldl (TestRunner.runStep hasB hasA) acc).2 =
        acc.2 ++ (ts.map (fun t => specEvents hasB hasA t.1 t.2)).flatten ∧
      (ts.foldl (TestRunner.runStep hasB hasA) acc).1.failures =
        acc.1.failures ++ ts.filterMap
          (fun t => (testError hasB hasA t.2).map (fun e => (t.1, e))) := by
  intro ts
  induction ts with
  | nil => intro acc; simp
  | cons t rest ih =>
    intro acc
    rw [List.foldl_cons, runStep_char]
    cases htest : testError hasB hasA t.2 with
    | none =>
      have ihs := ih ({ acc.1 with passed := acc.1.passed + 1 },
        acc.2 ++ specEvents hasB hasA t.1 t.2)
      refine ⟨?_, ?_, ?_, ?_⟩
      · rw [ihs.1]
      · rw [ihs.2.1]
        show acc.1.passed + 1 + acc.1.failed + rest.length =
          acc.1.passed + acc.1.failed + (rest.length + 1)
        omega
      · rw [ihs.2.2.1]
        simp
      · rw [ihs.2.2.2]
        simp [List.filterMap_cons, htest]
    | some e =>
      have ihs := ih ({ acc.1 with
          failed := acc.1.failed + 1
          failures := acc.1.failures ++ [(t.1, e)] },
        acc.2 ++ specEvents hasB hasA t.1 t.2)
      refine ⟨?_, ?_, ?_, ?_⟩
      · rw [ihs.1]
      · rw [ihs.2.1]
        show acc.1.passed + (acc.1.failed + 1) + rest.length =
          acc.1.passed + acc.1.failed + (rest.length + 1)
        omega
      · rw [ihs.2.2.1]
        simp
      · rw [ihs.2.2.2]
        simp [List.filterMap_cons, htest]

/-- **C3 (counterexample).** The claim says `runTests` runs the
`afterEach` hook after *each* test.  It does not: the hook call sits in
the same `try` block as the test body, so a throwing test skips it.
With `afterEach` set and a single test whose body throws, the run
performs no `afterEach` invocation at all (while the test is counted
failed). -/
theorem testrunner_afterEach_counterexample :
    (TestRunner.runTests
      ⟨[("t", ⟨Except.ok (), Except.error "boom", Except.ok ()⟩)],
        false, true⟩).2.count (TEvent.afterRun "t") = 0 ∧
    (TestRunner.runTests
      ⟨[("t", ⟨Except.ok (), Except.error "boom", Except.ok ()⟩)],
        false, true⟩).1.failed = 1 := by
  exact ⟨by decide, by decide⟩

/-- **C3 (amended).** `runTests` executes the registered tests
sequentially in registration order; before each test it runs
`beforeEach` (when set); it runs the test body unless `beforeEach`
threw; it runs `afterEach` (when set) after each test whose
`beforeEach` and body both succeeded — not after failing tests; the
returned results satisfy `total` = number of registered tests,
`passed + failed = total`, and `failures` lists exactly the name and
error of each test whose run (hook or body) threw, in order. -/
theorem testrunner_amended (r : TestRunner) :
    (r.runTests).1.total = r.tests.length ∧
    (r.runTests).1.passed + (r.runTests).1.failed = (r.runTests).1.total ∧
    (r.runTests).2 =
      (r.tests.map (fun t => specEvents r.hasBefore r.hasAfter t.1 t.2)).flatten ∧
    (r.runTests).1.failures =
      r.tests.filterMap
        (fun t => (testError r.hasBefore r.hasAfter t.2).map
          (fun e => (t.1, e))) := by
  unfold TestRunner.runTests
  have h := runTests_fold r.hasBefore r.hasAfter r.tests
    ({ passed := 0, failed := 0, total := r.tests.length, failures := [] }, [])
  refine ⟨h.1, ?_, ?_, ?_⟩
  · rw [h.2.1, h.1]
    simp
  · simpa using h.2.2.1
  · simpa using h.2.2.2

/-! ## `circuitBreaker` theorems -/

/-- **C5.** For the function returned by `circuitBreaker(operation,
threshold)`: whenever the failure count has reached `threshold` and
less than 60000 ms have passed since the most recent failure, a call
throws `'Circuit breaker open'` without invoking `operation` (the
result and state are independent of `op`); once at least 60000 ms have
passed, the failure counter is reset to `0` and `operation` runs again
(a success leaves the counter at `0`, a failure sets it to `1` and
records the time and rethrows); and below the threshold every call in
which `operation` throws increments the failure counter, records the
failure time, and rethrows the error. -/
theorem circuit_breaker_behavior (threshold : Nat)
    (st : CircuitBreakerState) (now : Nat) :
    (∀ op, st.failures ≥ threshold → now - st.lastFailure < 60000 →
      circuitBreakerCall threshold st now op =
        (Except.error "Circuit breaker open", st)) ∧
    (st.failures ≥ threshold → 60000 ≤ now - st.lastFailure →
      (∀ v, circuitBreakerCall threshold st now (.ok v) =
        (.ok v, { st with failures := 0 })) ∧
      (∀ e, circuitBreakerCall threshold st now (.error e) =
        (.error e, ⟨1, now⟩))) ∧
    (st.failures < threshold →
      (∀ v, circuitBreakerCall threshold st now (.ok v) = (.ok v, st)) ∧
      (∀ e, circuitBreakerCall threshold st now (.error e) =
        (.error e, ⟨st.failures + 1, now⟩))) := by
  refine ⟨?_, ?_, ?_⟩
  · intro op hge hlt
    unfold circuitBreakerCall
    rw [if_pos hge, if_pos hlt]
  · intro hge hlt
    have hnlt : ¬ (now - st.lastFailure < 60000) := by omega
    constructor
    · intro v
      unfold circuitBreakerCall
      rw [if_pos hge, if_neg hnlt]
      rfl
    · intro e
      unfold circuitBreakerCall
      rw [if_pos hge, if_neg hnlt]
      rfl
  · intro hlt
    have hnge : ¬ (st.failures ≥ threshold) := by omega
    constructor
    · intro v
      unfold circuitBreakerCall
      rw [if_neg hnge]
      rfl
    · intro e
      unfold circuitBreakerCall
      rw [if_neg hnge]
      rfl

theorem circuit_breaker_behavior_witness :
    circuitBreakerCall 2 ⟨2, 100⟩ 200 (Except.ok 5) =
      (Except.error "Circuit breaker open", ⟨2, 100⟩) ∧
    circuitBreakerCall 2 ⟨2, 100⟩ 70000 (Except.ok 5) =
      (Except.ok 5, ⟨0, 100⟩) ∧
    circuitBreakerCall 2 ⟨1, 100⟩ 200 (Except.error "x") =
      (Except.error "x", ⟨2, 200⟩) :=
  ⟨(circuit_breaker_behavior 2 ⟨2, 100⟩ 200).1 (Except.ok 5) (by decide)
      (by decide),
    ((circuit_breaker_behavior 2 ⟨2, 100⟩ 70000).2.1 (by decide)
      (by decide)).1 5,
    ((circuit_breaker_behavior 2 ⟨1, 100⟩ 200).2.2 (by decide)).2 "x"⟩

/-! ## Retry helper theorems -/

theorem retryAux_eq (res : Nat → Except String Int) (delay : Nat) :
    ∀ n attempts i, attempts - i ≤ n →
      retryAux res delay attempts i =
        RetryMechanism.retryAux res delay attempts (i + 1) := by
  intro n
  induction n with
  | zero =>
    intro attempts i h
    have h2 : ¬ i < attempts := by omega
    have h3 : ¬ i + 1 ≤ attempts := h2
    unfold retryAux RetryMechanism.retryAux
    rw [dif_neg h2, dif_neg h3]
  | succ n ihn =>
    intro attempts i h
    by_cases h2 : i < attempts
    · have h3 : i + 1 ≤ attempts := h2
      unfold retryAux RetryMechanism.retryAux
      rw [dif_pos h2, dif_pos h3]
      have hidx : i + 1 - 1 = i := by omega
      rw [hidx]
      cases hres : res i with
      | ok v => rfl
      | error e =>
        simp only []
        have hiff : (i = attempts - 1) ↔ (i + 1 = attempts) := by omega
        by_cases hlast : i = attempts - 1
        · rw [if_pos hlast, if_pos (hiff.1 hlast)]
        · rw [if_neg hlast, if_neg (fun hh => hlast (hiff.2 hh))]
          rw [ihn attempts (i + 1) (by omega)]
    · have h3 : ¬ i + 1 ≤ attempts := h2
      unfold retryAux RetryMechanism.retryAux
      rw [dif_neg h2, dif_neg h3]

theorem retryAux_calls_le (res : Nat → Except String Int) (delay : Nat) :
    ∀ n attempts i, attempts - i ≤ n →
      (retryAux res delay attempts i).calls ≤ attempts - i := by
  intro n
  induction n with
  | zero =>
    intro attempts i h
    have h2 : ¬ i < attempts := by omega
    unfold retryAux
    rw [dif_neg h2]
    simp
  | succ n ihn =>
    intro attempts i h
    by_cases h2 : i < attempts
    · unfold retryAux
      rw [dif_pos h2]
      cases hres : res i with
      | ok v =>
        show (1 : Nat) ≤ attempts - i
        omega
      | error e =>
        simp only []
        by_cases hlast : i = attempts - 1
        · rw [if_pos hlast]
          show (1 : Nat) ≤ attempts - i
          omega
        · rw [if_neg hlast]
          have hrec := ihn attempts (i + 1) (by omega)
          show (retryAux res delay attempts (i + 1)).calls + 1 ≤ attempts - i
          omega
    · unfold retryAux
      rw [dif_neg h2]
      simp

theorem retryAux_first_success (res : Nat → Except String Int)
    (delay : Nat) :
    ∀ n attempts k i, k - i ≤ n → i ≤ k → k < attempts →
      (∀ j, i ≤ j → j < k → isErr (res j) = true) →
      ∀ v, res k = .ok v →
        retryAux res delay attempts i =
          ⟨.ok (some v), k - i + 1, List.replicate (k - i) delay⟩ := by
  intro n
  induction n with
  | zero =>
    intro attempts k i hn hik hk _ v hres
    have hki : i = k := by omega
    subst hki
    unfold retryAux
    rw [dif_pos (by omega : i < attempts), hres]
    simp
  | succ n ihn =>
    intro attempts k i hn hik hk hprev v hres
    by_cases hik2 : i = k
    · subst hik2
      unfold retryAux
      rw [dif_pos (by omega : i < attempts), hres]
      simp
    · have hiklt : i < k := by omega
      have herr : isErr (res i) = true := hprev i (le_refl i) hiklt
      unfold retryAux
      rw [dif_pos (by omega : i < attempts)]
      cases hres2 : res i with
      | ok v2 =>
        rw [hres2] at herr
        simp [isErr] at herr
      | error e =>
        simp only []
        rw [if_neg (by omega : ¬ i = attempts - 1)]
        have hrec := ihn attempts k (i + 1) (by omega) (by omega) hk
          (fun j hj1 hj2 => hprev j (by omega) hj2) v hres
        show (⟨(retryAux res delay attempts (i + 1)).result,
          (retryAux res delay attempts (i + 1)).calls + 1,
          delay :: (retryAux res delay attempts (i + 1)).delays⟩ :
            RetryTrace) = _
        rw [hrec]
        have h1 : k - i = (k - (i + 1)) + 1 := by omega
        rw [h1]
        simp [List.replicate_succ]

theorem retryAux_all_fail (res : Nat → Except String Int) (delay : Nat) :
    ∀ n attempts i, attempts - i ≤ n → i < attempts →
      (∀ j, i ≤ j → j < attempts → isErr (res j) = true) →
      ∀ e, res (attempts - 1) = .error e →
        retryAux res delay attempts i =
          ⟨.error e, attempts - i, List.replicate (attempts - 1 - i) delay⟩ := by
  intro n
  induction n with
  | zero =>
    intro attempts i hn hlt _ e _
    exact absurd hn (by omega)
  | succ n ihn =>
    intro attempts i hn hlt hall e hres
    by_cases hlast : i = attempts - 1
    · subst hlast
      unfold retryAux
      rw [dif_pos hlt, hres]
      simp only [if_true]
      have h1 : attempts - (attempts - 1) = 1 := by omega
      have h2 : attempts - 1 - (attempts - 1) = 0 := by omega
      rw [h1, h2]
      rfl
    · have herr : isErr (res i) = true := hall i (le_refl i) hlt
      unfold retryAux
      rw [dif_pos hlt]
      cases hres2 : res i with
      | ok v =>
        rw [hres2] at herr
        simp [isErr] at herr
      | error e2 =>
        simp only []
        rw [if_neg hlast]
        have hrec := ihn attempts (i + 1) (by omega) (by omega)
          (fun j hj1 hj2 => hall j (by omega) hj2) e hres
        show (⟨(retryAux res delay attempts (i + 1)).result,
          (retryAux res delay attempts (i + 1)).calls + 1,
          delay :: (retryAux res delay attempts (i + 1)).delays⟩ :
            RetryTrace) = _
        rw [hrec]
        have h1 : attempts - i = (attempts - (i + 1)) + 1 := by omega
        have h2 : attempts - 1 - i = (attempts - 1 - (i + 1)) + 1 := by omega
        rw [h1, h2]
        simp [List.replicate_succ]

/-- **C6.** For every operation outcome sequence `res` and every
`attempts ≥ 1`, the two retry helpers (`retry` in src/unnamed/part_004
and `RetryMechanism.retry` in src/01_JS_Introduction.js) are the same
procedure; they invoke the operation at most `attempts` times; they
return the result of the first succeeding invocation without invoking
again, having waited the same fixed `delay` between consecutive
attempts (`List.replicate` of one constant — a fixed, not increasing,
backoff); and when every attempt fails they rethrow the error of the
final attempt. -/
theorem retry_helpers (res : Nat → Except String Int)
    (attempts delay : Nat) (hat : 1 ≤ attempts) :
    retry res attempts delay = RetryMechanism.retry res attempts delay ∧
    (retry res attempts delay).calls ≤ attempts ∧
    (∀ k v, k < attempts → (∀ j, j < k → isErr (res j) = true) →
      res k = .ok v →
      retry res attempts delay =
        ⟨.ok (some v), k + 1, List.replicate k delay⟩) ∧
    (∀ e, (∀ j, j < attempts → isErr (res j) = true) →
      res (attempts - 1) = .error e →
      retry res attempts delay =
        ⟨.error e, attempts, List.replicate (attempts - 1) delay⟩) := by
  refine ⟨?_, ?_, ?_, ?_⟩
  · exact retryAux_eq res delay attempts attempts 0 (by omega)
  · have h := retryAux_calls_le res delay attempts attempts 0 (by omega)
    simpa using h
  · intro k v hk hprev hres
    have h := retryAux_first_success res delay k attempts k 0 (by omega)
      (by omega) hk (fun j _ hj2 => hprev j hj2) v hres
    simpa using h
  · intro e hall hres
    have h := retryAux_all_fail res delay attempts attempts 0 (by omega)
      (by omega) (fun j _ hj2 => hall j hj2) e hres
    simpa using h

theorem retry_helpers_witness :
    retry (fun i => if i = 0 then Except.error "boom" else Except.ok 7)
        3 1000 =
      ⟨Except.ok (some 7), 2, [1000]⟩ :=
  (retry_helpers
    (fun i => if i = 0 then Except.error "boom" else Except.ok 7)
    3 1000 (by decide)).2.2.1 1 7 (by decide) (by decide) rfl

/-! ## `Assertions.assertThrows` theorems -/

/-- **C9.** `assertThrows(fn)` never propagates an exception: when `fn`
throws `e`, the catch block returns `e` as a value; when `fn` does not
throw, the `'Expected function to throw'` error raised inside the same
`try` block is caught by the function's own `catch` and returned as a
value; so every call returns normally with an `Error` value. -/
theorem assertThrows_total (fnOutcome : Except String Unit) :
    (∀ e, fnOutcome = .error e → assertThrows fnOutcome = .ok e) ∧
    (fnOutcome = .ok () →
      assertThrows fnOutcome = .ok "Expected function to throw") ∧
    (∃ e, assertThrows fnOutcome = .ok e) := by
  refine ⟨?_, ?_, ?_⟩
  · intro e he
    rw [he]
    rfl
  · intro he
    rw [he]
    rfl
  · cases fnOutcome with
    | ok v => exact ⟨"Expected function to throw", rfl⟩
    | error e => exact ⟨e, rfl⟩

theorem assertThrows_total_witness :
    assertThrows (Except.error "boom") = Except.ok "boom" ∧
    assertThrows (Except.ok ()) =
      Except.ok "Expected function to throw" :=
  ⟨(assertThrows_total (Except.error "boom")).1 "boom" rfl,
    (assertThrows_total (Except.ok ())).2.1 rfl⟩

/-! ## Module-export guard theorems -/

/-- **C7.** Every repository file that assigns its exports does so only
inside the `typeof module !== 'undefined'` guard (no file holds an
unguarded assignment), so evaluating any file's export statements in an
environment where the global `module` is undefined — loading it as a
plain script — never fails with a reference error from the export
assignment. -/
theorem exports_always_guarded :
    ∀ f ∈ repoFiles, ∀ e ∈ f.2,
      e ≠ TopLevelExport.unguarded ∧
      evalExportStmt e false = Except.ok () := by
  have hguard : repoFiles.all
      (fun f => f.2.all (fun e => e == TopLevelExport.guarded)) = true := by
    decide
  intro f hf e he
  have hb : (e == TopLevelExport.guarded) = true :=
    List.all_eq_true.1 (List.all_eq_true.1 hguard f hf) e he
  have he2 : e = TopLevelExport.guarded := by simpa using hb
  subst he2
  exact ⟨by decide, rfl⟩

theorem exports_always_guarded_witness :
    TopLevelExport.guarded ≠ TopLevelExport.unguarded ∧
    evalExportStmt TopLevelExport.guarded false = Except.ok () :=
  exports_always_guarded ("15_Memory_Management.js", [TopLevelExport.guarded])
    (by decide) TopLevelExport.guarded (by decide)
